import Mathlib

/-!
Verification development for the x_scraper repository.

Shallow embedding of the discovery-and-extraction pipeline:
* `src/main.ts` — `find_links` (link discovery loop, classification of
  timeline posts, inline saving of simple posts) and `saveSimpleContent`;
* `src/content_downloader.ts` — `extractIds`, the resume check and rate-limit
  observer inside `processTweetContent`, and `processMultipleTweets`;
* the video module — `groupSegmentsByQuality` and the quality selection in
  `downloadTwitterVideo`.

Browser primitives (DOM queries, navigation, network) are modelled as data
fed to the embedded functions: an `Article` records the element-presence
facts the page-side evaluation in `extractLinks` queries, a feed function
gives the rendered articles after each scroll, and page behaviour during a
per-post visit is an explicit parameter.  All functions of the repository
itself are translated directly from the source.
-/

namespace XScraper

/-! ### String helpers (JS primitive behaviour on the inputs used here) -/

/-- Maximal leading run of decimal digits of a character list, with the rest. -/
def takeDigits : List Char → List Char × List Char
  | [] => ([], [])
  | c :: cs =>
    if c.isDigit then
      let (d, r) := takeDigits cs
      (c :: d, r)
    else ([], c :: cs)

/-- Maximal leading run of characters that are not a slash, with the rest.
Mirrors the `[^\/]+` regex piece of `extractIds`. -/
def takeNonSlash : List Char → List Char × List Char
  | [] => ([], [])
  | c :: cs =>
    if c = '/' then ([], c :: cs)
    else
      let (d, r) := takeNonSlash cs
      (c :: d, r)

/-- Substring test on character lists: `pat` occurs somewhere in the list.
Mirrors JS `String.prototype.includes`. -/
def listContainsSub (pat : List Char) : List Char → Bool
  | [] => pat.isEmpty
  | c :: cs => pat.isPrefixOf (c :: cs) || listContainsSub pat cs

/-- JS `s.includes(pat)`. -/
def strContains (s pat : String) : Bool :=
  listContainsSub pat.data s.data

/-- JS `s.startsWith(pre)`. -/
def strStarts (s pre : String) : Bool :=
  pre.data.isPrefixOf s.data

/-- JS `s.endsWith(post)`. -/
def strEnds (s post : String) : Bool :=
  post.data.isSuffixOf s.data

/-- Split a character list at every occurrence of the separator character.
Mirrors JS `String.prototype.split` with a one-character separator. -/
def splitCharAux (sep : Char) : List Char → List Char → List (List Char)
  | acc, [] => [acc.reverse]
  | acc, c :: cs =>
    if c = sep then acc.reverse :: splitCharAux sep [] cs
    else splitCharAux sep (c :: acc) cs

/-- JS `s.split(sep)` for a one-character separator. -/
def splitChar (sep : Char) (s : String) : List String :=
  (splitCharAux sep [] s.data).map List.asString

/-- Remove the first occurrence of `pat` from the list, if any.
Mirrors JS `s.replace(pat, '')` for a plain-string pattern. -/
def replaceFirstAux (pat : List Char) : List Char → Option (List Char)
  | [] => if pat.isEmpty then some [] else none
  | c :: cs =>
    if pat.isPrefixOf (c :: cs) then some ((c :: cs).drop pat.length)
    else (replaceFirstAux pat cs).map (c :: ·)

/-- JS `s.replace(pat, '')`: removes the first occurrence of `pat`. -/
def replaceFirst (s pat : String) : String :=
  match replaceFirstAux pat.data s.data with
  | some r => r.asString
  | none => s

/-! ### Timeline article model and classification (`src/main.ts`, `extractLinks`)

The page-side evaluation in `extractLinks` inspects each `article` element
through a fixed set of DOM queries.  An `Article` records the outcome of
exactly those queries: one boolean per element-presence check, the tweet text,
the media image URLs, and the text content of every `span` in the article
(which the "Show more" detection scans). -/

structure Article where
  /-- Attribute `href` of the `a:has(time)` link; `none` when the element or attribute
  is missing (a falsy `href` is skipped by the extraction loop). -/
  href : Option String
  /-- text content of `[data-testid="tweetText"]` (empty when absent). -/
  text : String
  /-- Attribute `src` of every `img[src*="pbs.twimg.com/media"]`. -/
  imageUrls : List String
  /-- Element `[data-testid="videoPlayer"]` present. -/
  videoPlayerElem : Bool
  /-- Element `[data-testid="cardPoll"]` present. -/
  pollElem : Bool
  /-- Element `[data-testid="card.wrapper"]` present. -/
  cardWrapperElem : Bool
  /-- Element `[role="button"][tabindex="0"]:not([aria-label])` present. -/
  unlabeledButtonElem : Bool
  /-- Element `span[dir="auto"]:not([data-testid])` present. -/
  autoDirSpanElem : Bool
  /-- text content of every `span` element in the article. -/
  spanTexts : List String
  /-- Element `a[role="link"][aria-expanded="false"]` present. -/
  collapsedLinkElem : Bool
deriving Repr, DecidableEq

def hasVideo (a : Article) : Bool := a.videoPlayerElem

def hasPoll (a : Article) : Bool := a.pollElem

def hasCard (a : Article) : Bool := a.cardWrapperElem

/-- The "Show more" / expandable-content check of `extractLinks`
(`src/main.ts` lines 99–113): three structural element checks plus a scan of
every span's text for the phrases "Show more" / "显示更多" / "查看更多". -/
def hasShowMore (a : Article) : Bool :=
  a.unlabeledButtonElem ||
  a.autoDirSpanElem ||
  a.spanTexts.any (fun t =>
    strContains t "Show more" || strContains t "显示更多" || strContains t "查看更多") ||
  a.collapsedLinkElem

/-- Classification `isSimpleTweet` as computed in `extractLinks` (`src/main.ts` line 115). -/
def isSimpleTweet (a : Article) : Bool :=
  !hasVideo a && !hasPoll a && !hasCard a && !hasShowMore a

/-- The fields of an article that come from element-presence checks alone
(no text content): equality of these is "structural equality". -/
def structEq (a b : Article) : Prop :=
  a.videoPlayerElem = b.videoPlayerElem ∧
  a.pollElem = b.pollElem ∧
  a.cardWrapperElem = b.cardWrapperElem ∧
  a.unlabeledButtonElem = b.unlabeledButtonElem ∧
  a.autoDirSpanElem = b.autoDirSpanElem ∧
  a.collapsedLinkElem = b.collapsedLinkElem

instance (a b : Article) : Decidable (structEq a b) := by
  unfold structEq
  infer_instance

/-! ### `saveSimpleContent` (`src/main.ts` lines 246–296)

Saves a simple tweet's inline text and images.  The function catches every
error internally and returns a boolean.  Downloads are modelled as
succeeding; the observable outcome is the pair (returned boolean, list of
file paths written, relative to the output directory). -/

/-- Extension choice of `saveSimpleContent`:
`imageUrl.includes('.png') ? 'png' : 'jpg'`. -/
def simpleImageExt (imageUrl : String) : String :=
  if strContains imageUrl ".png" then "png" else "jpg"

/-- Model of `saveSimpleContent`: returns
(result boolean, files written under the output directory as
`userId/fileName`).  A malformed href (fewer than 4 `/`-separated parts)
raises internally, is caught, and yields `(false, [])`.  Text is written
only when non-empty (JS truthiness); each image is written with a 1-based
index. -/
def saveSimpleContent (href : String) (text : String) (imageUrls : List String) :
    Bool × List String :=
  let parts := splitChar '/' href
  if parts.length < 4 then (false, [])
  else
    let userId := (parts.get? 1).getD ""
    let postId := (parts.get? 3).getD ""
    let textWrites := if text ≠ "" then [userId ++ "/" ++ postId ++ ".txt"] else []
    let imgWrites := (List.range imageUrls.length).map fun i =>
      userId ++ "/" ++ postId ++ "-" ++ toString (i + 1) ++ "." ++
        simpleImageExt ((imageUrls.get? i).getD "")
    (true, textWrites ++ imgWrites)

/-! ### The link discovery loop (`src/main.ts`, `find_links`)

The page-side evaluation returns, per rendered article with a (truthy) href,
an item carrying the href, the `isSimpleTweet` classification and the inline
content.  `extractLinks` then folds those items into the mutable state of
`find_links` (`uniqueLinks`, `foundIds`, `processedTweets`), saving simple
tweets inline when downloading is enabled, and returns `-1`
(here: `limitReached = true`) as soon as the link limit is hit. -/

structure ExtractedItem where
  href : String
  simple : Bool
  text : String
  imageUrls : List String
deriving Repr, DecidableEq

/-- The page-side evaluation of `extractLinks` (`$$eval` body): one item per
article whose `a:has(time)` link has a truthy href (a missing or empty
attribute is skipped). -/
def pageItems (articles : List Article) : List ExtractedItem :=
  articles.filterMap fun a =>
    match a.href with
    | some h => if h = "" then none else some ⟨h, isSimpleTweet a, a.text, a.imageUrls⟩
    | none => none

/-- Mutable state of one `find_links` run. -/
structure DiscoveryState where
  /-- Set `uniqueLinks`, a `Set<string>` kept in insertion (= discovery) order. -/
  uniqueLinks : List String
  /-- Counter `foundIds`. -/
  foundIds : Nat
  /-- Set `processedTweets`: hrefs saved inline as simple tweets. -/
  processedTweets : List String
  /-- files written by `saveSimpleContent` so far. -/
  saves : List String
  /-- Flag set when `extractLinks` returned `-1` (link limit hit). -/
  limitReached : Bool
deriving Repr, DecidableEq

def DiscoveryState.init : DiscoveryState := ⟨[], 0, [], [], false⟩

/-- Body of the result-processing loop for one new href: add it to the
link set, bump `foundIds`, and, when downloading a simple tweet, save its
inline content (the saved-or-not boolean is discarded by the source) and
mark the href processed. -/
def addItem (download : Bool) (s : DiscoveryState) (it : ExtractedItem) : DiscoveryState :=
  let s1 : DiscoveryState :=
    { s with uniqueLinks := s.uniqueLinks ++ [it.href], foundIds := s.foundIds + 1 }
  if download && it.simple then
    { s1 with processedTweets := s1.processedTweets ++ [it.href],
              saves := s1.saves ++ (saveSimpleContent it.href it.text it.imageUrls).2 }
  else s1

/-- The result-processing loop of `extractLinks` (`src/main.ts` lines
132–153): for each item, if the href is new, process it via `addItem`,
then stop with `-1` (here: `limitReached`) when the link limit is hit. -/
def extractLoop (limit : Nat) (download : Bool) :
    DiscoveryState → List ExtractedItem → DiscoveryState
  | s, [] => s
  | s, it :: rest =>
    if s.uniqueLinks.contains it.href then extractLoop limit download s rest
    else
      let s2 := addItem download s it
      if 0 < limit ∧ limit ≤ s2.uniqueLinks.length then { s2 with limitReached := true }
      else extractLoop limit download s2 rest

/-- State of the scroll-and-extract loop (`src/main.ts` lines 166–198). -/
structure LoopState where
  ds : DiscoveryState
  /-- Variable `previousSize`, initialised to `0`. -/
  previousSize : Nat
  /-- Counter `sameCountIterations`. -/
  sameCount : Nat
  reachedBottom : Bool
  /-- number of scroll-extract cycles performed so far. -/
  scrolls : Nat
  /-- number of cycles whose extraction added no link (observer field). -/
  noGrowthCycles : Nat
deriving Repr, DecidableEq

/-- The `while` condition plus the `break` on `-1`: the body runs again only
when the bottom was not reached, the `max_id` bound (0 = unlimited) is not
exhausted, and the previous extraction did not hit the link limit. -/
def loopCond (maxId : Nat) (ls : LoopState) : Bool :=
  !ls.reachedBottom && (maxId == 0 || ls.ds.foundIds < maxId) && !ls.ds.limitReached

/-- One scroll-extract cycle: scroll (moving to the next rendered feed
state), extract, then run the bottom-detection bookkeeping — unless the
extraction hit the limit, in which case the loop breaks at once. -/
def scrollStep (feed : Nat → List Article) (limit : Nat) (download : Bool)
    (ls : LoopState) : LoopState :=
  let ds' := extractLoop limit download ls.ds (pageItems (feed (ls.scrolls + 1)))
  let grew := ls.ds.uniqueLinks.length < ds'.uniqueLinks.length
  let ls' : LoopState :=
    { ls with ds := ds', scrolls := ls.scrolls + 1,
              noGrowthCycles := if grew then ls.noGrowthCycles else ls.noGrowthCycles + 1 }
  if ds'.limitReached then ls'
  else if ds'.uniqueLinks.length == ls.previousSize then
    if 3 ≤ ls.sameCount + 1 then
      { ls' with sameCount := ls.sameCount + 1, reachedBottom := true }
    else { ls' with sameCount := ls.sameCount + 1 }
  else { ls' with sameCount := 0, previousSize := ds'.uniqueLinks.length }

/-- The scroll loop, fuelled (the source loop need not terminate for an
ever-growing feed; every theorem quantifies over or fixes the fuel). -/
def runLoop (feed : Nat → List Article) (limit maxId : Nat) (download : Bool) :
    Nat → LoopState → LoopState
  | 0, ls => ls
  | fuel + 1, ls =>
    if loopCond maxId ls then
      runLoop feed limit maxId download fuel (scrollStep feed limit download ls)
    else ls

/-- Observable outcome of a `find_links` run. -/
structure FindLinksResult where
  /-- the returned list of full post URLs (`finalLinks`). -/
  links : List String
  /-- the argument passed to `processMultipleTweets` (`remainingLinks`);
  `[]` when the orchestrator is not invoked. -/
  batched : List String
  /-- whether `processMultipleTweets` was invoked. -/
  batchCalled : Bool
  processedTweets : List String
  saves : List String
  scrolls : Nat
  noGrowthCycles : Nat
deriving Repr, DecidableEq

/-- The initial article wait (`src/main.ts` lines 37–52): up to
`MAX_RETRIES = 5` `waitForSelector` attempts; each failed non-final attempt
is followed by a delay and a small scroll nudge before the retry.
`appears i` tells whether attempt `i` finds an article.  Returns
(success, number of scroll nudges performed). -/
def articleWaitAux (appears : Nat → Bool) : Nat → Nat → Nat → Bool × Nat
  | _, 0, nudges => (false, nudges)
  | i, fuel + 1, nudges =>
    if appears i then (true, nudges)
    else if fuel == 0 then (false, nudges)
    else articleWaitAux appears (i + 1) fuel (nudges + 1)

def articleWait (appears : Nat → Bool) : Bool × Nat :=
  articleWaitAux appears 0 5 0

/-- The initial extraction (`let extractResult = await extractLinks()`). -/
def initialExtract (feed : Nat → List Article) (limit : Nat) (download : Bool) :
    DiscoveryState :=
  extractLoop limit download .init (pageItems (feed 0))

/-- The early return taken when the link limit is reached during the
initial extraction: the collected links are returned at once — the scroll
loop, the `finalLinks` truncation and the whole download block (including
`processMultipleTweets`) are all skipped. -/
def earlyResult (s1 : DiscoveryState) : FindLinksResult :=
  { links := s1.uniqueLinks.map fun h => "https://x.com" ++ h,
    batched := [], batchCalled := false,
    processedTweets := s1.processedTweets, saves := s1.saves,
    scrolls := 0, noGrowthCycles := 0 }

/-- Truncation to `finalLinks`: apply the limit if needed. -/
def finalLinksOf (limit : Nat) (resultLinks : List String) : List String :=
  if 0 < limit ∧ limit < resultLinks.length then resultLinks.take limit
  else resultLinks

/-- Filter to `remainingLinks`: drop tweets already processed inline. -/
def remainingOf (processed : List String) (finalLinks : List String) : List String :=
  finalLinks.filter fun link => !processed.contains (replaceFirst link "https://x.com")

/-- Result built after the scroll loop: truncate to the limit, and when
downloading with a nonempty list, hand the not-inline-processed remainder
to `processMultipleTweets`. -/
def mainResult (limit : Nat) (download : Bool) (lsF : LoopState) : FindLinksResult :=
  let finalLinks := finalLinksOf limit (lsF.ds.uniqueLinks.map fun h => "https://x.com" ++ h)
  if download && finalLinks.length != 0 then
    { links := finalLinks,
      batched := remainingOf lsF.ds.processedTweets finalLinks,
      batchCalled := (remainingOf lsF.ds.processedTweets finalLinks).length != 0,
      processedTweets := lsF.ds.processedTweets, saves := lsF.ds.saves,
      scrolls := lsF.scrolls, noGrowthCycles := lsF.noGrowthCycles }
  else
    { links := finalLinks, batched := [], batchCalled := false,
      processedTweets := lsF.ds.processedTweets, saves := lsF.ds.saves,
      scrolls := lsF.scrolls, noGrowthCycles := lsF.noGrowthCycles }

/-- Model of `find_links` (`src/main.ts` lines 15–244).  `appears` models the
environment of the initial article wait; `feed k` is the set of rendered
articles after `k` scrolls (`feed 0` = initial render).  Throws (as
`Except.error`) exactly where the source does. -/
def find_links (appears : Nat → Bool) (feed : Nat → List Article)
    (maxId limit : Nat) (download : Bool) (fuel : Nat) :
    Except String FindLinksResult :=
  if !(articleWait appears).1 then
    .error "Could not load Twitter content. The page might be unavailable or the account may not exist."
  else if (initialExtract feed limit download).limitReached then
    .ok (earlyResult (initialExtract feed limit download))
  else
    .ok (mainResult limit download
      (runLoop feed limit maxId download fuel ⟨initialExtract feed limit download, 0, 0, false, 0, 0⟩))

/-! ### `extractIds` (`src/content_downloader.ts` lines 115–126)

`url.match(/https:\/\/x\.com\/([^\/]+)\/status\/(\d+)/)`: the pattern may
match anywhere in the string; the user id is a maximal nonempty run of
non-slash characters, the post id a maximal nonempty digit run.  A failed
match makes the source throw; here it is `none`. -/

structure TweetIds where
  userId : String
  postId : String
deriving Repr, DecidableEq

def extractIdsAux : List Char → Option TweetIds
  | [] => none
  | c :: cs =>
    if ("https://x.com/").data.isPrefixOf (c :: cs) then
      let rest := (c :: cs).drop 14
      let uid := takeNonSlash rest
      if uid.1.isEmpty then extractIdsAux cs
      else if ("/status/").data.isPrefixOf uid.2 then
        let pid := takeDigits (uid.2.drop 8)
        if pid.1.isEmpty then extractIdsAux cs
        else some ⟨uid.1.asString, pid.1.asString⟩
      else extractIdsAux cs
    else extractIdsAux cs

def extractIds (url : String) : Option TweetIds :=
  extractIdsAux url.data

/-! ### The resume check of `processTweetContent`
(`src/content_downloader.ts` lines 477–510)

The filesystem is a list of file names inside `{output}/{userId}/`. -/

/-- The "already processed" predicate: a text file, any `postId-*` image
file (jpg/png/gif), the video file, the video-info placeholder, the
video-error file, or the video-player screenshot exists. -/
def alreadyDone (files : List String) (postId : String) : Bool :=
  let hasTextFile := files.contains (postId ++ ".txt")
  let hasImageFiles := files.any fun f =>
    strStarts f (postId ++ "-") &&
      (strEnds f ".jpg" || strEnds f ".png" || strEnds f ".gif")
  let hasVideoFile := files.contains (postId ++ ".mp4")
  let hasVideoInfo := files.contains (postId ++ "-video-info.txt")
  let hasVideoError := files.contains (postId ++ "-video-error.txt")
  let hasScreenshot := files.contains (postId ++ "-video-player.png")
  hasTextFile || hasImageFiles || hasVideoFile || hasVideoInfo || hasVideoError || hasScreenshot

/-! ### The rate-limit response observer
(`src/content_downloader.ts` lines 512–544) -/

/-- What the 429 observer does to one response: how long it waits (ms),
whether it reloads the page afterwards, and whether it lets processing
continue (it always does — it never aborts the operation). -/
structure RateLimitAction where
  waitedMs : Option Int
  reloaded : Bool
  continued : Bool
deriving Repr, DecidableEq

/-- The `page.on('response')` handler: on a 429 with an
`x-rate-limit-reset` header (epoch seconds), compute
`waitMs = reset * 1000 - now`; wait and reload only when positive.
Without the header (or on any other status) nothing is done and processing
continues. -/
def onRateLimitResponse (nowMs : Int) (status : Nat) (resetHeader : Option Nat) :
    RateLimitAction :=
  if status = 429 then
    match resetHeader with
    | some reset =>
      let waitMs : Int := (reset : Int) * 1000 - nowMs
      if 0 < waitMs then ⟨some waitMs, true, true⟩
      else ⟨none, false, true⟩
    | none => ⟨none, false, true⟩
  else ⟨none, false, true⟩

/-! ### `processTweetContent` (`src/content_downloader.ts` lines 466–585)

Page behaviour during the visit is an explicit parameter.  `navRaises`
models an exception escaping the navigation/extraction phase into the
function's own `catch` (e.g. a 429-flavoured failure); everything else
describes the page content.  `safeNavigate`, `extractAndSaveText`,
`extractAndDownloadImages` and `extractAndDownloadVideos` all catch their
own errors internally: in a non-raising run the text file is always written
(success or error text), each image is written with a 1-based index, and
video handling writes the screenshot and info placeholder (download is
disabled in the source) or an error file. -/

structure PageBehavior where
  /-- When `some is429`, an exception escapes into `processTweetContent`'s catch;
  the boolean says whether its message/code signals HTTP 429. -/
  navRaises : Option Bool
  /-- media image URLs found on the post page (all downloads succeed). -/
  imageUrls : List String
  /-- a `div[data-testid="videoPlayer"]` is present. -/
  videoPlayerFound : Bool
  /-- the video-player screenshot succeeds. -/
  screenshotOk : Bool
  /-- Whether `extractAndDownloadVideos` fails internally and writes the error file. -/
  videoStepFails : Bool
deriving Repr, DecidableEq

/-- Extension choice of `extractAndDownloadImages`
(`src/content_downloader.ts` lines 324–326). -/
def downloadImageExt (url : String) : String :=
  if strContains url ".jpg" || strContains url ".jpeg" then "jpg"
  else if strContains url ".png" then "png"
  else if strContains url ".gif" then "gif"
  else "jpg"

/-- Observable outcome of one `processTweetContent` call. -/
structure TweetRun where
  /-- the returned boolean: `true` = processed, `false` = skipped or failed. -/
  returned : Bool
  /-- whether the post page was navigated to. -/
  navigated : Bool
  /-- files written inside `{output}/{userId}/`, in order. -/
  writes : List String
deriving Repr, DecidableEq

/-- Files written by `extractAndDownloadVideos` for a given page. -/
def videoStepWrites (postId : String) (pb : PageBehavior) : List String :=
  if pb.videoStepFails then [postId ++ "-video-error.txt"]
  else if pb.videoPlayerFound then
    (if pb.screenshotOk then [postId ++ "-video-player.png"] else []) ++
      [postId ++ "-video-info.txt"]
  else []

/-- Model of `processTweetContent`: derive the ids (a mismatch throws, is caught by
the function's own catch, and returns `false`); skip before navigating when
any resume artifact exists; otherwise navigate and extract.  A raised
429-flavoured exception writes the `-rate-limited.txt` placeholder and
returns `false`; any other raised exception just returns `false`. -/
def processTweetContent (files : List String) (url : String) (pb : PageBehavior) :
    TweetRun :=
  match extractIds url with
  | none => ⟨false, false, []⟩
  | some ids =>
    if alreadyDone files ids.postId then ⟨false, false, []⟩
    else
      match pb.navRaises with
      | some is429 =>
        if is429 then ⟨false, true, [ids.postId ++ "-rate-limited.txt"]⟩
        else ⟨false, true, []⟩
      | none =>
        let textWrites := [ids.postId ++ ".txt"]
        let imgWrites := (List.range pb.imageUrls.length).map fun i =>
          ids.postId ++ "-" ++ toString (i + 1) ++ "." ++
            downloadImageExt ((pb.imageUrls.get? i).getD "")
        ⟨true, true, textWrites ++ imgWrites ++ videoStepWrites ids.postId pb⟩

/-! ### `processMultipleTweets` (`src/content_downloader.ts` lines 594–736)

The per-item loop wraps each `processTweetContent` call in a `try`/`catch`:
a normally returned boolean bumps `processedCount` or `skippedCount`; an
exception reaching the catch bumps `rateLimitedCount` when its code/message
signals 429 and `skippedCount` otherwise, and the loop always continues.
An item is therefore a returned boolean or a raised exception. -/

inductive ItemSignal where
  | retOk (processed : Bool)
  | raised (has429 : Bool)
deriving Repr, DecidableEq

structure BatchSummary where
  processedCount : Nat
  skippedCount : Nat
  rateLimitedCount : Nat
deriving Repr, DecidableEq

def countItem (acc : BatchSummary) : ItemSignal → BatchSummary
  | .retOk true => { acc with processedCount := acc.processedCount + 1 }
  | .retOk false => { acc with skippedCount := acc.skippedCount + 1 }
  | .raised true => { acc with rateLimitedCount := acc.rateLimitedCount + 1 }
  | .raised false => { acc with skippedCount := acc.skippedCount + 1 }

/-- Model of `processMultipleTweets` over the per-item signals.  The per-item catch
converts every raised exception into a count and continues, and the whole
body sits in a further catch-all, so the function never throws: the result
is always `Except.ok`. -/
def processMultipleTweets (items : List ItemSignal) : Except String BatchSummary :=
  .ok (items.foldl countItem ⟨0, 0, 0⟩)

/-- A `processTweetContent` call surfaces to the orchestrator's loop as a
normally returned boolean (the function catches all its errors itself). -/
def signalOf (r : TweetRun) : ItemSignal := .retOk r.returned

/-! ### Segment quality grouping and selection
(`groupSegmentsByQuality` and the selection inside `downloadTwitterVideo`)

The quality token of a URL: the first `(\d+)x(\d+)` resolution match, else
the capture of the first `(\d+)000` bitrate match suffixed `kbps`, else the
sentinel `unknown`.  Groups are a record keyed by token, modelled as an
association list in key-insertion order (the tokens are never array-index
strings, so JS object key order is insertion order). -/

/-- First match of `/(\d+)x(\d+)/` in the character list, as the matched
substring: a maximal digit run, an `x`, then a maximal digit run. -/
def resMatchAux : List Char → Option (List Char)
  | [] => none
  | c :: cs =>
    if c.isDigit then
      let d1 := takeDigits (c :: cs)
      match d1.2 with
      | 'x' :: r2 =>
        let d2 := takeDigits r2
        if d2.1.isEmpty then resMatchAux cs else some (d1.1 ++ 'x' :: d2.1)
      | _ => resMatchAux cs
    else resMatchAux cs

/-- Three `'0'` characters at offset `t` of the run. -/
def zeroTripleAt (run : List Char) (t : Nat) : Bool :=
  (run.drop t).take 3 == ['0', '0', '0']

/-- Largest positive offset of a `"000"` triple inside the digit run — the
greedy split point of `/(\d+)000/` within a single run. -/
def maxZeroTriple (run : List Char) : Option Nat :=
  (List.range run.length).foldl
    (fun acc t => if 0 < t then (if zeroTripleAt run t then some t else acc) else acc)
    none

/-- Capture group of the first `/(\d+)000/` match: the digits before the
greedy-matched literal `000`. -/
def bitrateCapture : List Char → Option (List Char)
  | [] => none
  | c :: cs =>
    if c.isDigit then
      let run := (takeDigits (c :: cs)).1
      match maxZeroTriple run with
      | some t => some (run.take t)
      | none => bitrateCapture cs
    else bitrateCapture cs

/-- Quality token of one segment URL (`groupSegmentsByQuality` body). -/
def extractQuality (url : String) : String :=
  match resMatchAux url.data with
  | some m => m.asString
  | none =>
    match bitrateCapture url.data with
    | some d => d.asString ++ "kbps"
    | none => "unknown"

/-- Append a URL to its quality bucket, keeping key-insertion order. -/
def insertGroup (q url : String) : List (String × List String) → List (String × List String)
  | [] => [(q, [url])]
  | (k, us) :: rest =>
    if k = q then (k, us ++ [url]) :: rest
    else (k, us) :: insertGroup q url rest

/-- Model of `groupSegmentsByQuality`. -/
def groupSegmentsByQuality (segments : List String) : List (String × List String) :=
  segments.foldl (fun g url => insertGroup (extractQuality url) url g) []

/-- Bucket of a given quality key (`[]` when the key is absent). -/
def groupLookup (groups : List (String × List String)) (q : String) : List String :=
  ((groups.find? fun g => g.1 == q).map Prod.snd).getD []

/-- JS `Number` on the strings produced by splitting a quality key at `x`:
a digit string (possibly empty — `Number('') = 0`) parses; anything else
is NaN, i.e. `none`. -/
def jsNumber (l : List Char) : Option Nat :=
  if l.all Char.isDigit then some (l.foldl (fun n c => n * 10 + (c.toNat - 48)) 0)
  else none

/-- Pixel area of a quality key: `key.split('x')` then the product of the
first two pieces, `none` when that is NaN (fewer than two pieces, or a
piece that is not a number). -/
def qualityArea (q : String) : Option Nat :=
  match splitChar 'x' q with
  | a :: b :: _ =>
    match jsNumber a.data, jsNumber b.data with
    | some w, some h => some (w * h)
    | _, _ => none
  | _ => none

/-- The sort comparator `(a, b) => areaB - areaA`; a NaN result is treated
as `0` by `Array.prototype.sort` (the two keys compare as equal). -/
def sortCompare (a b : String) : Int :=
  match qualityArea a, qualityArea b with
  | some x, some y => (y : Int) - (x : Int)
  | _, _ => 0

/-- Stable insertion of one key into an already-sorted key list: an earlier
key stays in front unless it compares strictly greater. -/
def insertSorted (x : String) : List String → List String
  | [] => [x]
  | y :: ys => if sortCompare y x ≤ 0 then y :: insertSorted x ys else x :: y :: ys

/-- Model of `Object.keys(videoGroups).sort(...)`: a stable sort of the keys by
descending area (ES2019+ requires sort stability; on these inputs the
comparator is consistent exactly when it is, and stable insertion sort
agrees with any stable sort). -/
def sortKeysByAreaDesc (keys : List String) : List String :=
  keys.foldl (fun acc k => insertSorted k acc) []

/-- Selection `bestVideoQuality`: head of the sorted key list. -/
def bestVideoQuality (videoGroups : List (String × List String)) : Option String :=
  (sortKeysByAreaDesc (videoGroups.map Prod.fst)).head?

/-- Selection `Object.keys(audioGroups)[0]`: the first audio group key. -/
def bestAudioQuality (audioGroups : List (String × List String)) : Option String :=
  (audioGroups.map Prod.fst).head?

/-! ## Theorems -/

/-! ### C1 — classification of timeline posts -/

/-- C1, counterexample: The claim says every marker flag is determined
by structural element-presence checks alone, never by parsing text content.
Two articles that agree on every element-presence check but differ in one
span's text are classified differently: the article whose span text contains
"Show more" is complex, the structurally identical one without it is simple.
So the truncation flag does parse text content. -/
theorem classification_reads_text_content :
    structEq
      ⟨some "/u/status/1", "hello", [], false, false, false, false, false, ["hello"], false⟩
      ⟨some "/u/status/1", "hello", [], false, false, false, false, false, ["see Show more"], false⟩ ∧
    isSimpleTweet
      ⟨some "/u/status/1", "hello", [], false, false, false, false, false, ["hello"], false⟩ = true ∧
    isSimpleTweet
      ⟨some "/u/status/1", "hello", [], false, false, false, false, false, ["see Show more"], false⟩ = false := by
  refine ⟨by decide, by decide, by decide⟩

/-- C1, amended: A rendered post is classified simple iff it has none
of the four feature markers — complex ⇔ (hasVideo ∨ hasPoll ∨ hasCard ∨
hasShowMore) — and the video, poll and card flags are pure element-presence
checks; the truncation flag, however, also scans every span's text for
"Show more" phrases, so it is not determined by element presence alone. -/
theorem simple_iff_no_feature_markers :
    ∀ a : Article,
      (isSimpleTweet a = false ↔ (hasVideo a || hasPoll a || hasCard a || hasShowMore a) = true) ∧
      hasVideo a = a.videoPlayerElem ∧ hasPoll a = a.pollElem ∧ hasCard a = a.cardWrapperElem := by
  intro a
  refine ⟨?_, rfl, rfl, rfl⟩
  unfold isSimpleTweet
  cases hasVideo a <;> cases hasPoll a <;> cases hasCard a <;> cases hasShowMore a <;> simp

/-! ### C6 — the 429 rate-limit observer -/

/-- C6: On an HTTP 429 carrying an `x-rate-limit-reset` header the
observer computes `wait = resetTime − now`; when that is positive it
suspends for exactly that duration and then reloads the page, and it always
lets the operation continue rather than aborting; when the wait is not
positive, or when no reset header is present, it performs no wait and no
reload and processing simply continues. -/
theorem rate_limit_observer_behaviour :
    ∀ (nowMs : Int) (reset : Nat),
      (0 < (reset : Int) * 1000 - nowMs →
        onRateLimitResponse nowMs 429 (some reset) =
          ⟨some ((reset : Int) * 1000 - nowMs), true, true⟩) ∧
      (¬ 0 < (reset : Int) * 1000 - nowMs →
        onRateLimitResponse nowMs 429 (some reset) = ⟨none, false, true⟩) ∧
      onRateLimitResponse nowMs 429 none = ⟨none, false, true⟩ ∧
      (∀ (status : Nat) (header : Option Nat),
        (onRateLimitResponse nowMs status header).continued = true) := by
  intro nowMs reset
  refine ⟨?_, ?_, ?_, ?_⟩
  · intro h
    simp [onRateLimitResponse, h]
  · intro h
    simp [onRateLimitResponse, h]
  · simp [onRateLimitResponse]
  · intro status header
    unfold onRateLimitResponse
    split
    · rename_i hs
      cases header with
      | none => rfl
      | some r => dsimp only; split <;> rfl
    · rfl

/-- C6, witness: A 429 whose reset time lies five seconds in the
future makes the observer wait exactly 5000 ms, reload, and continue. -/
theorem rate_limit_observer_behaviour_witness :
    onRateLimitResponse 995000 429 (some 1000) = ⟨some 5000, true, true⟩ := by
  have h := (rate_limit_observer_behaviour 995000 1000).1 (by decide)
  simpa using h

/-! ### C7 — outcome reporting and the batch summary counts -/

/-- C7, counterexample: A post whose navigation raises a 429 is caught
inside `processTweetContent`: a rate-limited placeholder is written and the
function returns `false` — the same value as for an already-done skip —
and the batch summary then counts the item under `skippedCount`
(`skippedCount = 1`) while `rateLimitedCount` stays `0`, contrary to the
claim that every rate-limited item increments the rate-limited count and
not the skipped count. -/
theorem rate_limited_item_counted_as_skipped :
    processTweetContent [] "https://x.com/bob/status/42" ⟨some true, [], false, false, false⟩ =
      ⟨false, true, ["42-rate-limited.txt"]⟩ ∧
    processMultipleTweets
      [signalOf (processTweetContent [] "https://x.com/bob/status/42"
        ⟨some true, [], false, false, false⟩)] =
      .ok ⟨0, 1, 0⟩ ∧
    processTweetContent ["42.txt"] "https://x.com/bob/status/42"
      ⟨none, [], false, false, false⟩ = ⟨false, false, []⟩ := by
  refine ⟨by decide, rfl, by decide⟩

/-- Counting lemma for the orchestrator loop over normally returned
booleans: `rateLimitedCount` is reachable only from a raised exception. -/
theorem foldl_countItem_retOk (runs : List TweetRun) (acc : BatchSummary) :
    (runs.map signalOf).foldl countItem acc =
      ⟨acc.processedCount + (runs.filter fun r => r.returned).length,
       acc.skippedCount + (runs.filter fun r => !r.returned).length,
       acc.rateLimitedCount⟩ := by
  induction runs generalizing acc with
  | nil => simp
  | cons r rs ih =>
    cases hr : r.returned <;>
      simp [signalOf, countItem, hr, ih, Nat.add_assoc, Nat.add_comm, Nat.add_left_comm]

/-- C7, amended: `processTweetContent` returns a plain boolean, so
already-done skips and error/rate-limit failures are indistinguishable in
its outcome; a rate-limit exception during navigation is caught inside it,
recorded as the `-rate-limited.txt` placeholder, and returned as `false`
without aborting the batch; consequently the batch summary counts every
such item under `skippedCount`, and `rateLimitedCount` can only be
incremented by an exception that escapes the per-item call itself — which
`processTweetContent`'s own catch-all prevents, leaving it `0`. -/
theorem rate_limited_reported_as_skip :
    (∀ (files : List String) (url : String) (ids : TweetIds) (pb : PageBehavior),
      extractIds url = some ids →
      alreadyDone files ids.postId = false →
      pb.navRaises = some true →
      processTweetContent files url pb =
        ⟨false, true, [ids.postId ++ "-rate-limited.txt"]⟩) ∧
    (∀ runs : List TweetRun,
      processMultipleTweets (runs.map signalOf) =
        .ok ⟨(runs.filter fun r => r.returned).length,
             (runs.filter fun r => !r.returned).length, 0⟩) := by
  constructor
  · intro files url ids pb hids hdone hraise
    unfold processTweetContent
    rw [hids]
    simp [hdone, hraise]
  · intro runs
    unfold processMultipleTweets
    rw [foldl_countItem_retOk]
    simp

/-- C7, amended, witness: One rate-limited post and one already-done
post both surface as `false` and are both counted as skipped. -/
theorem rate_limited_reported_as_skip_witness :
    processTweetContent [] "https://x.com/bob/status/42" ⟨some true, [], true, true, false⟩ =
      ⟨false, true, ["42-rate-limited.txt"]⟩ ∧
    processMultipleTweets [signalOf ⟨false, true, ["42-rate-limited.txt"]⟩, signalOf ⟨false, false, []⟩] =
      .ok ⟨0, 2, 0⟩ := by
  constructor
  · exact (rate_limited_reported_as_skip.1 [] "https://x.com/bob/status/42"
      ⟨"bob", "42"⟩ ⟨some true, [], true, true, false⟩ (by decide) (by decide) rfl)
  · have h := rate_limited_reported_as_skip.2
      [⟨false, true, ["42-rate-limited.txt"]⟩, ⟨false, false, []⟩]
    simpa using h

/-! ### C3 — idempotent resume -/

/-- C3, counterexample: The claim includes the rate-limit marker among
the artifacts that make a post count as done, but the resume check tests
only the six other artifact kinds: with `{postId}-rate-limited.txt` as the
sole artifact the predicate is false and `processTweetContent` navigates
and reprocesses the post (writing its text file) instead of returning the
skipped outcome — the second run is not a pure no-op. -/
theorem rate_limit_marker_not_resumed :
    alreadyDone ["987654321-rate-limited.txt"] "987654321" = false ∧
    processTweetContent ["987654321-rate-limited.txt"]
      "https://x.com/alice/status/987654321" ⟨none, [], false, false, false⟩ =
      ⟨true, true, ["987654321.txt"]⟩ := by
  refine ⟨by decide, by decide⟩

/-- Membership characterisation of the resume predicate. -/
theorem alreadyDone_eq_true_iff (files : List String) (postId : String) :
    alreadyDone files postId = true ↔
      (postId ++ ".txt") ∈ files ∨
      (∃ f, f ∈ files ∧ (strStarts f (postId ++ "-") &&
        (strEnds f ".jpg" || strEnds f ".png" || strEnds f ".gif")) = true) ∨
      (postId ++ ".mp4") ∈ files ∨
      (postId ++ "-video-info.txt") ∈ files ∨
      (postId ++ "-video-error.txt") ∈ files ∨
      (postId ++ "-video-player.png") ∈ files := by
  unfold alreadyDone
  simp [List.contains, List.any_eq_true, Bool.or_eq_true, or_assoc]

/-- Predicate `alreadyDone` holds as soon as the text file is among the files. -/
theorem alreadyDone_of_txt_mem (files : List String) (postId : String)
    (h : (postId ++ ".txt") ∈ files) : alreadyDone files postId = true := by
  rw [alreadyDone_eq_true_iff]
  exact .inl h

/-- Adding further files never un-does a done post. -/
theorem alreadyDone_append (files more : List String) (postId : String)
    (h : alreadyDone files postId = true) : alreadyDone (files ++ more) postId = true := by
  rw [alreadyDone_eq_true_iff] at h ⊢
  rcases h with h | h | h | h | h | h
  · exact .inl (List.mem_append_left _ h)
  · obtain ⟨f, hf, hp⟩ := h
    exact .inr (.inl ⟨f, List.mem_append_left _ hf, hp⟩)
  · exact .inr (.inr (.inl (List.mem_append_left _ h)))
  · exact .inr (.inr (.inr (.inl (List.mem_append_left _ h))))
  · exact .inr (.inr (.inr (.inr (.inl (List.mem_append_left _ h)))))
  · exact .inr (.inr (.inr (.inr (.inr (List.mem_append_left _ h)))))

/-- The unskipped, non-raising run of `processTweetContent`: navigates and
writes the text file first, then the numbered images, then the video
artifacts. -/
theorem processTweetContent_run (files : List String) (url : String)
    (ids : TweetIds) (pb : PageBehavior) (hids : extractIds url = some ids)
    (hdone : alreadyDone files ids.postId = false) (hraise : pb.navRaises = none) :
    processTweetContent files url pb =
      ⟨true, true,
        [ids.postId ++ ".txt"] ++
        ((List.range pb.imageUrls.length).map fun i =>
          ids.postId ++ "-" ++ toString (i + 1) ++ "." ++
            downloadImageExt ((pb.imageUrls.get? i).getD "")) ++
        videoStepWrites ids.postId pb⟩ := by
  unfold processTweetContent
  rw [hids]
  simp [hdone, hraise]

/-- C3, amended: A post counts as done exactly when a text file, any
numbered jpg/png/gif image file, the video file, the video-info
placeholder, the video-error file, or the video-player screenshot exists
for its post id — the rate-limit marker does not count.  Whenever one of
those six exists, `processTweetContent` returns the skipped outcome before
navigating and performs zero writes; and after any completed (non-raising)
first run the text file exists, so a second run against the resulting
output state is a pure no-op reporting skipped. -/
theorem resume_skip_and_idempotence :
    (∀ (files : List String) (url : String) (ids : TweetIds) (pb : PageBehavior),
      extractIds url = some ids →
      alreadyDone files ids.postId = true →
      processTweetContent files url pb = ⟨false, false, []⟩) ∧
    (∀ (files : List String) (url : String) (ids : TweetIds) (pb pb' : PageBehavior),
      extractIds url = some ids →
      pb.navRaises = none →
      processTweetContent
        (files ++ (processTweetContent files url pb).writes) url pb' =
        ⟨false, false, []⟩) := by
  have hskip : ∀ (files : List String) (url : String) (ids : TweetIds) (pb : PageBehavior),
      extractIds url = some ids →
      alreadyDone files ids.postId = true →
      processTweetContent files url pb = ⟨false, false, []⟩ := by
    intro files url ids pb hids hdone
    unfold processTweetContent
    rw [hids]
    simp [hdone]
  refine ⟨hskip, ?_⟩
  intro files url ids pb pb' hids hraise
  apply hskip _ _ ids _ hids
  by_cases hdone : alreadyDone files ids.postId = true
  · rw [hskip files url ids pb hids hdone]
    exact alreadyDone_append files [] ids.postId hdone
  · rw [processTweetContent_run files url ids pb hids
      (Bool.not_eq_true _ ▸ hdone) hraise]
    exact alreadyDone_of_txt_mem _ _ (by simp)

/-- C3, amended, witness: Concrete instances: a done state (text file
present) is skipped with zero writes, and a second run right after a fresh
first run is skipped with zero writes. -/
theorem resume_skip_and_idempotence_witness :
    processTweetContent ["987654321.txt"] "https://x.com/alice/status/987654321"
      ⟨none, [], false, false, false⟩ = ⟨false, false, []⟩ ∧
    processTweetContent
      ([] ++ (processTweetContent [] "https://x.com/alice/status/987654321"
        ⟨none, ["https://pbs.twimg.com/media/a.jpg"], false, false, false⟩).writes)
      "https://x.com/alice/status/987654321" ⟨none, [], false, false, false⟩ =
      ⟨false, false, []⟩ := by
  constructor
  · exact resume_skip_and_idempotence.1 ["987654321.txt"]
      "https://x.com/alice/status/987654321" ⟨"alice", "987654321"⟩
      ⟨none, [], false, false, false⟩ (by decide) (by decide)
  · exact resume_skip_and_idempotence.2 [] "https://x.com/alice/status/987654321"
      ⟨"alice", "987654321"⟩
      ⟨none, ["https://pbs.twimg.com/media/a.jpg"], false, false, false⟩
      ⟨none, [], false, false, false⟩ (by decide) rfl

/-! ### C8 — quality grouping and selection -/

/-- Bucket lookup on a cons cell. -/
theorem groupLookup_cons (k : String) (us : List String)
    (gs : List (String × List String)) (q : String) :
    groupLookup ((k, us) :: gs) q = if k = q then us else groupLookup gs q := by
  by_cases h : k = q
  · unfold groupLookup
    rw [List.find?_cons_of_pos _ (by simp [h])]
    simp [h]
  · unfold groupLookup
    rw [List.find?_cons_of_neg _ (by simp [h])]
    simp [h]

/-- Effect of one insertion on a bucket. -/
theorem groupLookup_insertGroup (g : List (String × List String)) (q' url q : String) :
    groupLookup (insertGroup q' url g) q =
      if q = q' then groupLookup g q ++ [url] else groupLookup g q := by
  induction g with
  | nil =>
    show groupLookup [(q', [url])] q = _
    rw [groupLookup_cons]
    by_cases h : q = q'
    · subst h
      simp [groupLookup]
    · rw [if_neg (fun hh => h hh.symm), if_neg h]
  | cons p rest ih =>
    obtain ⟨k, us⟩ := p
    show groupLookup (if k = q' then (k, us ++ [url]) :: rest
        else (k, us) :: insertGroup q' url rest) q = _
    by_cases hk : k = q'
    · rw [if_pos hk]
      subst hk
      rw [groupLookup_cons, groupLookup_cons]
      by_cases hq : k = q
      · rw [if_pos hq, if_pos hq.symm, if_pos hq]
      · rw [if_neg hq, if_neg (fun hh => hq hh.symm), if_neg hq]
    · rw [if_neg hk, groupLookup_cons, groupLookup_cons]
      by_cases hq : k = q
      · rw [if_pos hq, if_pos hq, if_neg (fun hh : q = q' => hk (hq.trans hh))]
      · rw [if_neg hq, if_neg hq, ih]

/-- Folding segments into groups appends each segment to the bucket of its
own quality token. -/
theorem groupLookup_foldl (segs : List String) (g : List (String × List String))
    (q : String) :
    groupLookup (segs.foldl (fun g url => insertGroup (extractQuality url) url g) g) q =
      groupLookup g q ++ segs.filter (fun u => extractQuality u == q) := by
  induction segs generalizing g with
  | nil => simp
  | cons u rest ih =>
    rw [List.foldl_cons, ih, groupLookup_insertGroup]
    by_cases h : q = extractQuality u
    · simp [List.filter_cons, h, List.append_assoc]
    · have : (extractQuality u == q) = false := by
        simp
        exact fun he => h he.symm
      simp [List.filter_cons, this, if_neg h]

/-- Pixel area used for ranking, with NaN as `0`. -/
def areaD (q : String) : Nat := (qualityArea q).getD 0

/-- On parseable keys the comparator orders by area. -/
theorem sortCompare_le_iff (a b : String) (ha : (qualityArea a).isSome)
    (hb : (qualityArea b).isSome) :
    sortCompare a b ≤ 0 ↔ areaD b ≤ areaD a := by
  obtain ⟨x, hx⟩ := Option.isSome_iff_exists.mp ha
  obtain ⟨y, hy⟩ := Option.isSome_iff_exists.mp hb
  simp only [sortCompare, areaD, hx, hy, Option.getD_some]
  omega

theorem mem_insertSorted (x k : String) (l : List String) :
    k ∈ insertSorted x l ↔ k = x ∨ k ∈ l := by
  induction l with
  | nil => simp [insertSorted]
  | cons y ys ih =>
    by_cases h : sortCompare y x ≤ 0 <;> simp [insertSorted, h, ih] <;> tauto

/-- The head of the list dominates every member by area. -/
def headMax (l : List String) : Prop :=
  ∀ b, l.head? = some b → ∀ k ∈ l, areaD k ≤ areaD b

theorem insertSorted_cons (x y : String) (ys : List String) :
    insertSorted x (y :: ys) =
      if sortCompare y x ≤ 0 then y :: insertSorted x ys else x :: y :: ys := rfl

theorem headMax_insertSorted (x : String) (l : List String)
    (hx : (qualityArea x).isSome) (hl : ∀ k ∈ l, (qualityArea k).isSome)
    (h : headMax l) : headMax (insertSorted x l) := by
  cases l with
  | nil =>
    intro b hb k hk
    simp only [insertSorted, List.head?_cons, Option.some.injEq] at hb
    simp only [insertSorted, List.mem_singleton] at hk
    rw [hk, ← hb]
  | cons y ys =>
    have hy : (qualityArea y).isSome := hl y (by simp)
    by_cases hc : sortCompare y x ≤ 0
    · intro b hb k hk
      rw [insertSorted_cons, if_pos hc] at hb hk
      simp only [List.head?_cons, Option.some.injEq] at hb
      rcases List.mem_cons.mp hk with hk | hk
      · rw [hk, ← hb]
      · rcases (mem_insertSorted x k ys).mp hk with hk | hk
        · rw [hk, ← hb]
          exact (sortCompare_le_iff y x hy hx).mp hc
        · rw [← hb]
          exact h y rfl k (List.mem_cons_of_mem _ hk)
    · intro b hb k hk
      rw [insertSorted_cons, if_neg hc] at hb hk
      simp only [List.head?_cons, Option.some.injEq] at hb
      have hyx : areaD y < areaD x := by
        have hni := hc
        rw [sortCompare_le_iff y x hy hx] at hni
        omega
      rcases List.mem_cons.mp hk with hk | hk
      · rw [hk, ← hb]
      · rcases List.mem_cons.mp hk with hk | hk
        · rw [hk, ← hb]
          exact le_of_lt hyx
        · rw [← hb]
          exact le_trans (h y rfl k (List.mem_cons_of_mem _ hk)) (le_of_lt hyx)

theorem sortKeys_aux (keys : List String) (acc : List String)
    (hkeys : ∀ k ∈ keys, (qualityArea k).isSome)
    (hacc : ∀ k ∈ acc, (qualityArea k).isSome) (hmax : headMax acc) :
    (∀ k, k ∈ keys.foldl (fun acc k => insertSorted k acc) acc ↔ k ∈ acc ∨ k ∈ keys) ∧
      headMax (keys.foldl (fun acc k => insertSorted k acc) acc) := by
  induction keys generalizing acc with
  | nil =>
    refine ⟨fun k => ?_, ?_⟩
    · simp
    · simpa using hmax
  | cons x rest ih =>
    have hx : (qualityArea x).isSome := hkeys x (by simp)
    have hacc' : ∀ k ∈ insertSorted x acc, (qualityArea k).isSome := by
      intro k hk
      rcases (mem_insertSorted x k acc).mp hk with hk | hk
      · exact hk ▸ hx
      · exact hacc k hk
    have hmax' : headMax (insertSorted x acc) := headMax_insertSorted x acc hx hacc hmax
    obtain ⟨hmem, hmx⟩ := ih (insertSorted x acc)
      (fun k hk => hkeys k (List.mem_cons_of_mem _ hk)) hacc' hmax'
    refine ⟨fun k => ?_, hmx⟩
    rw [List.foldl_cons, hmem, mem_insertSorted]
    constructor
    · rintro ((h | h) | h)
      · exact .inr (by simp [h])
      · exact .inl h
      · exact .inr (List.mem_cons_of_mem _ h)
    · rintro (h | h)
      · exact .inl (.inr h)
      · rcases List.mem_cons.mp h with h | h
        · exact .inl (.inl h)
        · exact .inr h

/-- C8, counterexample: The claim says groups lacking a parseable
resolution sort last.  In fact the comparator returns NaN (treated as `0`)
against such a key, so every comparison with it reports "equal" and the
stable sort leaves it in place: with an unparseable-quality segment captured
first, the reconstructor selects the `unknown` group over `1280x720`. -/
theorem unparseable_quality_selected_over_resolution :
    bestVideoQuality (groupSegmentsByQuality
      ["https://video.twimg.com/amplify_video/1/vid/plain.m4s",
       "https://video.twimg.com/amplify_video/1/vid/1280x720/seg0.m4s"]) =
      some "unknown" := by
  decide

/-- C8, amended: `groupSegmentsByQuality` partitions the segment URLs
by embedded quality token (the `WxH` resolution when present, else the
bitrate token, else the `unknown` sentinel); when every group key has a
parseable resolution the reconstructor selects the group with the largest
pixel area (width times height), and it always selects the first available
audio group; in particular, given groups `640x360` and `1280x720`, the
`1280x720` group is chosen.  Groups without a parseable resolution do not
sort last: they compare equal to everything and keep their insertion
position. -/
theorem quality_grouping_and_selection :
    (∀ (segs : List String) (q : String),
      groupLookup (groupSegmentsByQuality segs) q =
        segs.filter fun u => extractQuality u == q) ∧
    (∀ (keys : List String) (b : String),
      (∀ k ∈ keys, (qualityArea k).isSome) →
      (sortKeysByAreaDesc keys).head? = some b →
      b ∈ keys ∧ ∀ k ∈ keys, areaD k ≤ areaD b) ∧
    (∀ groups : List (String × List String),
      bestAudioQuality groups = (groups.map Prod.fst).head?) ∧
    bestVideoQuality (groupSegmentsByQuality
      ["https://video.twimg.com/amplify_video/1/vid/640x360/seg0.m4s",
       "https://video.twimg.com/amplify_video/1/vid/1280x720/seg0.m4s"]) =
      some "1280x720" := by
  refine ⟨?_, ?_, fun _ => rfl, by decide⟩
  · intro segs q
    unfold groupSegmentsByQuality
    rw [groupLookup_foldl]
    simp [groupLookup]
  · intro keys b hkeys hhead
    obtain ⟨hmem, hmax⟩ := sortKeys_aux keys [] hkeys (by simp) (by intro b hb; simp at hb)
    have hb : b ∈ keys := by
      have := (hmem b).mp (List.mem_of_mem_head? hhead)
      simpa using this
    refine ⟨hb, fun k hk => ?_⟩
    exact hmax b hhead k ((hmem k).mpr (.inr hk))

/-- C8, amended, witness: With the two parseable keys `640x360` and
`1280x720` the selected head is `1280x720`, a member dominating both by
area. -/
theorem quality_grouping_and_selection_witness :
    "1280x720" ∈ ["640x360", "1280x720"] ∧
      ∀ k ∈ ["640x360", "1280x720"], areaD k ≤ areaD "1280x720" := by
  exact quality_grouping_and_selection.2.1 ["640x360", "1280x720"] "1280x720"
    (by decide) (by decide)

/-! ### Invariants of the discovery loop (shared lemmas) -/

theorem addItem_uniqueLinks (download : Bool) (s : DiscoveryState) (it : ExtractedItem) :
    (addItem download s it).uniqueLinks = s.uniqueLinks ++ [it.href] := by
  cases h : download && it.simple <;> simp [addItem, h]

theorem addItem_processedTweets (download : Bool) (s : DiscoveryState) (it : ExtractedItem) :
    (addItem download s it).processedTweets =
      s.processedTweets ++ (if download && it.simple then [it.href] else []) := by
  cases h : download && it.simple <;> simp [addItem, h]

theorem addItem_limitReached (download : Bool) (s : DiscoveryState) (it : ExtractedItem) :
    (addItem download s it).limitReached = s.limitReached := by
  cases h : download && it.simple <;> simp [addItem, h]

/-- The link set of the extraction loop only ever grows by appending. -/
theorem extractLoop_unique_extend (limit : Nat) (download : Bool)
    (items : List ExtractedItem) :
    ∀ s : DiscoveryState, ∃ t,
      (extractLoop limit download s items).uniqueLinks = s.uniqueLinks ++ t := by
  induction items with
  | nil => exact fun s => ⟨[], by simp [extractLoop]⟩
  | cons it rest ih =>
    intro s
    rw [extractLoop]
    by_cases hc : s.uniqueLinks.contains it.href = true
    · rw [if_pos hc]
      exact ih s
    · rw [if_neg hc]
      by_cases hl : 0 < limit ∧ limit ≤ (addItem download s it).uniqueLinks.length
      · rw [if_pos hl]
        exact ⟨[it.href], addItem_uniqueLinks download s it⟩
      · rw [if_neg hl]
        obtain ⟨t, ht⟩ := ih (addItem download s it)
        exact ⟨[it.href] ++ t, by rw [ht, addItem_uniqueLinks, List.append_assoc]⟩

/-- The processed-tweets set of the extraction loop only ever grows. -/
theorem extractLoop_processed_extend (limit : Nat) (download : Bool)
    (items : List ExtractedItem) :
    ∀ s : DiscoveryState, ∃ t,
      (extractLoop limit download s items).processedTweets = s.processedTweets ++ t := by
  induction items with
  | nil => exact fun s => ⟨[], by simp [extractLoop]⟩
  | cons it rest ih =>
    intro s
    rw [extractLoop]
    by_cases hc : s.uniqueLinks.contains it.href = true
    · rw [if_pos hc]
      exact ih s
    · rw [if_neg hc]
      by_cases hl : 0 < limit ∧ limit ≤ (addItem download s it).uniqueLinks.length
      · rw [if_pos hl]
        exact ⟨if download && it.simple then [it.href] else [],
          addItem_processedTweets download s it⟩
      · rw [if_neg hl]
        obtain ⟨t, ht⟩ := ih (addItem download s it)
        exact ⟨(if download && it.simple then [it.href] else []) ++ t,
          by rw [ht, addItem_processedTweets, List.append_assoc]⟩

/-- The extraction loop never introduces a duplicate link. -/
theorem extractLoop_nodup (limit : Nat) (download : Bool)
    (items : List ExtractedItem) :
    ∀ s : DiscoveryState, s.uniqueLinks.Nodup →
      (extractLoop limit download s items).uniqueLinks.Nodup := by
  induction items with
  | nil => exact fun s h => by simpa [extractLoop] using h
  | cons it rest ih =>
    intro s hnd
    rw [extractLoop]
    by_cases hc : s.uniqueLinks.contains it.href = true
    · rw [if_pos hc]
      exact ih s hnd
    · rw [if_neg hc]
      have hmem : it.href ∉ s.uniqueLinks := fun hm =>
        hc (List.elem_eq_true_of_mem hm)
      have hnd2 : (addItem download s it).uniqueLinks.Nodup := by
        rw [addItem_uniqueLinks]
        simp [List.nodup_append, hnd, hmem]
      by_cases hl : 0 < limit ∧ limit ≤ (addItem download s it).uniqueLinks.length
      · rw [if_pos hl]
        exact hnd2
      · rw [if_neg hl]
        exact ih _ hnd2

/-- With a positive limit the extraction loop never exceeds it. -/
theorem extractLoop_length (limit : Nat) (download : Bool)
    (items : List ExtractedItem) :
    ∀ s : DiscoveryState, s.uniqueLinks.length < limit →
      (extractLoop limit download s items).uniqueLinks.length ≤ limit := by
  induction items with
  | nil =>
    intro s h
    rw [extractLoop]
    omega
  | cons it rest ih =>
    intro s h
    rw [extractLoop]
    by_cases hc : s.uniqueLinks.contains it.href = true
    · rw [if_pos hc]
      exact ih s h
    · rw [if_neg hc]
      have hlen : (addItem download s it).uniqueLinks.length = s.uniqueLinks.length + 1 := by
        rw [addItem_uniqueLinks]
        simp
      by_cases hl : 0 < limit ∧ limit ≤ (addItem download s it).uniqueLinks.length
      · rw [if_pos hl]
        show (addItem download s it).uniqueLinks.length ≤ limit
        omega
      · rw [if_neg hl]
        apply ih
        omega

/-- If every rendered href is already in the link set, extraction is a
no-op. -/
theorem extractLoop_stable (limit : Nat) (download : Bool)
    (items : List ExtractedItem) (s : DiscoveryState)
    (h : ∀ it ∈ items, it.href ∈ s.uniqueLinks) :
    extractLoop limit download s items = s := by
  induction items with
  | nil => rfl
  | cons it rest ih =>
    rw [extractLoop, if_pos (List.elem_eq_true_of_mem (h it (by simp)))]
    exact ih fun x hx => h x (List.mem_cons_of_mem _ hx)

/-- The discovery state of one scroll cycle is the extraction of the next
rendered feed. -/
theorem scrollStep_ds (feed : Nat → List Article) (limit : Nat) (download : Bool)
    (ls : LoopState) :
    (scrollStep feed limit download ls).ds =
      extractLoop limit download ls.ds (pageItems (feed (ls.scrolls + 1))) := by
  simp only [scrollStep]
  split
  · rfl
  · split
    · split <;> rfl
    · rfl

theorem scrollStep_scrolls (feed : Nat → List Article) (limit : Nat) (download : Bool)
    (ls : LoopState) :
    (scrollStep feed limit download ls).scrolls = ls.scrolls + 1 := by
  simp only [scrollStep]
  split
  · rfl
  · split
    · split <;> rfl
    · rfl

/-- The link set only grows across the scroll loop. -/
theorem runLoop_unique_extend (feed : Nat → List Article) (limit maxId : Nat)
    (download : Bool) :
    ∀ (fuel : Nat) (ls : LoopState), ∃ t,
      (runLoop feed limit maxId download fuel ls).ds.uniqueLinks =
        ls.ds.uniqueLinks ++ t := by
  intro fuel
  induction fuel with
  | zero => exact fun ls => ⟨[], by simp [runLoop]⟩
  | succ fuel ih =>
    intro ls
    rw [runLoop]
    by_cases hc : loopCond maxId ls = true
    · rw [if_pos hc]
      obtain ⟨t1, ht1⟩ := ih (scrollStep feed limit download ls)
      obtain ⟨t0, ht0⟩ := extractLoop_unique_extend limit download
        (pageItems (feed (ls.scrolls + 1))) ls.ds
      refine ⟨t0 ++ t1, ?_⟩
      rw [ht1, scrollStep_ds, ht0, List.append_assoc]
    · rw [if_neg hc]
      exact ⟨[], by simp⟩

/-- The scroll loop preserves duplicate-freeness of the link set. -/
theorem runLoop_nodup (feed : Nat → List Article) (limit maxId : Nat)
    (download : Bool) :
    ∀ (fuel : Nat) (ls : LoopState), ls.ds.uniqueLinks.Nodup →
      (runLoop feed limit maxId download fuel ls).ds.uniqueLinks.Nodup := by
  intro fuel
  induction fuel with
  | zero => exact fun ls h => by simpa [runLoop] using h
  | succ fuel ih =>
    intro ls h
    rw [runLoop]
    by_cases hc : loopCond maxId ls = true
    · rw [if_pos hc]
      apply ih
      rw [scrollStep_ds]
      exact extractLoop_nodup limit download _ ls.ds h
    · rw [if_neg hc]
      exact h

/-- Prefixing `https://x.com` is injective. -/
theorem mainResult_links (limit : Nat) (download : Bool) (lsF : LoopState) :
    (mainResult limit download lsF).links =
      finalLinksOf limit (lsF.ds.uniqueLinks.map fun h => "https://x.com" ++ h) := by
  simp only [mainResult]
  split <;> rfl

theorem finalLinksOf_nodup (limit : Nat) (rl : List String) (h : rl.Nodup) :
    (finalLinksOf limit rl).Nodup := by
  unfold finalLinksOf
  split
  · exact h.sublist (List.take_sublist _ _)
  · exact h

theorem finalLinksOf_length (limit : Nat) (rl : List String) (h : 0 < limit) :
    (finalLinksOf limit rl).length ≤ limit := by
  unfold finalLinksOf
  split
  · rename_i hc
    simp [List.length_take]
  · rename_i hc
    rcases not_and_or.mp hc with h1 | h1
    · exact absurd h h1
    · omega

theorem xcomPrefixInj : Function.Injective (fun h : String => "https://x.com" ++ h) := by
  intro a b hab
  have hd : ("https://x.com" ++ a).data = ("https://x.com" ++ b).data := by
    simp only at hab
    rw [hab]
  rw [String.data_append, String.data_append] at hd
  have hdc := List.append_cancel_left hd
  cases a
  cases b
  simp only at hdc
  rw [hdc]

/-- One scroll cycle when the feed yields nothing new: the discovery state
is unchanged and only the bottom-detection bookkeeping advances. -/
theorem scrollStep_stable (feed : Nat → List Article) (limit : Nat) (download : Bool)
    (ls : LoopState)
    (H : ∀ it ∈ pageItems (feed (ls.scrolls + 1)), it.href ∈ ls.ds.uniqueLinks)
    (hlr : ls.ds.limitReached = false) :
    scrollStep feed limit download ls =
      if ls.ds.uniqueLinks.length = ls.previousSize then
        if 3 ≤ ls.sameCount + 1 then
          { ls with scrolls := ls.scrolls + 1, noGrowthCycles := ls.noGrowthCycles + 1,
                    sameCount := ls.sameCount + 1, reachedBottom := true }
        else
          { ls with scrolls := ls.scrolls + 1, noGrowthCycles := ls.noGrowthCycles + 1,
                    sameCount := ls.sameCount + 1 }
      else
        { ls with scrolls := ls.scrolls + 1, noGrowthCycles := ls.noGrowthCycles + 1,
                  sameCount := 0, previousSize := ls.ds.uniqueLinks.length } := by
  have hds : extractLoop limit download ls.ds (pageItems (feed (ls.scrolls + 1))) = ls.ds :=
    extractLoop_stable limit download _ ls.ds H
  simp only [scrollStep, hds, hlr]
  by_cases hsz : ls.ds.uniqueLinks.length = ls.previousSize <;>
    by_cases h3 : 3 ≤ ls.sameCount + 1 <;>
    simp [hsz, h3, lt_irrefl]

/-- Flag `reachedBottom`, once set, is never reset by a scroll cycle. -/
theorem scrollStep_rb_mono (feed : Nat → List Article) (limit : Nat) (download : Bool)
    (ls : LoopState) (h : ls.reachedBottom = true) :
    (scrollStep feed limit download ls).reachedBottom = true := by
  simp only [scrollStep]
  split
  · exact h
  · split
    · split
      · rfl
      · exact h
    · exact h

theorem loopCond_false_of_rb (maxId : Nat) (ls : LoopState)
    (h : ls.reachedBottom = true) : loopCond maxId ls = false := by
  simp [loopCond, h]

/-- Starting a cycle with `sameCountIterations = 0` and the recorded
`previousSize` equal to the current link-set size, three stable cycles set
`reachedBottom`. -/
theorem stable_three_cycles (feed : Nat → List Article) (limit : Nat) (download : Bool)
    (ls : LoopState)
    (H : ∀ j, ls.scrolls < j → ∀ it ∈ pageItems (feed j), it.href ∈ ls.ds.uniqueLinks)
    (hlr : ls.ds.limitReached = false)
    (hsz : ls.ds.uniqueLinks.length = ls.previousSize)
    (hsc : ls.sameCount = 0) :
    (scrollStep feed limit download (scrollStep feed limit download
      (scrollStep feed limit download ls))).reachedBottom = true := by
  have h1 : scrollStep feed limit download ls =
      { ls with scrolls := ls.scrolls + 1, noGrowthCycles := ls.noGrowthCycles + 1,
                sameCount := ls.sameCount + 1 } := by
    rw [scrollStep_stable feed limit download ls (H _ (by omega)) hlr, if_pos hsz,
      if_neg (by omega)]
  rw [h1]
  have h2 : scrollStep feed limit download
      ({ ls with scrolls := ls.scrolls + 1, noGrowthCycles := ls.noGrowthCycles + 1,
                 sameCount := ls.sameCount + 1 }) =
      { ls with scrolls := ls.scrolls + 1 + 1, noGrowthCycles := ls.noGrowthCycles + 1 + 1,
                sameCount := ls.sameCount + 1 + 1 } := by
    rw [scrollStep_stable feed limit download
        ({ ls with scrolls := ls.scrolls + 1, noGrowthCycles := ls.noGrowthCycles + 1,
                   sameCount := ls.sameCount + 1 })
        (fun it hit => H (ls.scrolls + 1 + 1) (by omega) it hit) hlr,
      if_pos hsz, if_neg (show ¬ 3 ≤ ls.sameCount + 1 + 1 by omega)]
  rw [h2]
  have h3 : scrollStep feed limit download
      ({ ls with scrolls := ls.scrolls + 1 + 1, noGrowthCycles := ls.noGrowthCycles + 1 + 1,
                 sameCount := ls.sameCount + 1 + 1 }) =
      { ls with scrolls := ls.scrolls + 1 + 1 + 1,
                noGrowthCycles := ls.noGrowthCycles + 1 + 1 + 1,
                sameCount := ls.sameCount + 1 + 1 + 1, reachedBottom := true } := by
    rw [scrollStep_stable feed limit download
        ({ ls with scrolls := ls.scrolls + 1 + 1, noGrowthCycles := ls.noGrowthCycles + 1 + 1,
                   sameCount := ls.sameCount + 1 + 1 })
        (fun it hit => H (ls.scrolls + 1 + 1 + 1) (by omega) it hit) hlr,
      if_pos hsz, if_pos (show 3 ≤ ls.sameCount + 1 + 1 + 1 by omega)]
  rw [h3]

/-! ### C4 — termination of the scroll loop on a stable feed -/

/-- C4, counterexample: With the link found in the initial extraction
and a feed that never yields anything new (and no link limit, no
`maxPosts` bound), the loop performs **four** consecutive no-growth
scroll-extract cycles before stopping, not at most three: `previousSize`
starts at `0`, so the first stable cycle is misread as growth. -/
theorem four_stable_cycles_before_stop :
    find_links (fun _ => true)
      (fun _ => [⟨some "/u/status/1", "txt", [], false, false, false, false, false, [], false⟩])
      0 0 false 100 =
      .ok ⟨["https://x.com/u/status/1"], [], false, [], [], 4, 4⟩ := rfl

/-- C4, amended: Once the feed yields no link outside the current
set, the loop stops within four further scroll-extract cycles — and
within three when the recorded `previousSize` already equals the current
link-set size (which holds whenever the set last grew during a scroll
cycle; only when all links came from the initial extraction is a fourth
stable cycle needed, because `previousSize` is initialised to `0`).  The
loop condition reads no total scroll count: it is invariant under changing
the scroll counter. -/
theorem stable_feed_terminates :
    (∀ (feed : Nat → List Article) (limit maxId : Nat) (download : Bool)
        (ls : LoopState),
      (∀ j, ls.scrolls < j → ∀ it ∈ pageItems (feed j), it.href ∈ ls.ds.uniqueLinks) →
      ls.ds.limitReached = false →
      ls.sameCount = 0 →
      (loopCond maxId (scrollStep feed limit download (scrollStep feed limit download
        (scrollStep feed limit download (scrollStep feed limit download ls)))) = false ∧
       (ls.ds.uniqueLinks.length = ls.previousSize →
        loopCond maxId (scrollStep feed limit download (scrollStep feed limit download
          (scrollStep feed limit download ls))) = false))) ∧
    (∀ (maxId n : Nat) (ls : LoopState),
      loopCond maxId { ls with scrolls := n } = loopCond maxId ls) := by
  refine ⟨?_, fun maxId n ls => rfl⟩
  intro feed limit maxId download ls H hlr hsc
  by_cases hsz : ls.ds.uniqueLinks.length = ls.previousSize
  · have h3 := stable_three_cycles feed limit download ls H hlr hsz hsc
    refine ⟨?_, fun _ => loopCond_false_of_rb maxId _ h3⟩
    exact loopCond_false_of_rb maxId _ (scrollStep_rb_mono feed limit download _ h3)
  · have h1 : scrollStep feed limit download ls =
        { ls with scrolls := ls.scrolls + 1, noGrowthCycles := ls.noGrowthCycles + 1,
                  sameCount := 0, previousSize := ls.ds.uniqueLinks.length } := by
      rw [scrollStep_stable feed limit download ls (H _ (by omega)) hlr, if_neg hsz]
    have h3 := stable_three_cycles feed limit download
      ({ ls with scrolls := ls.scrolls + 1, noGrowthCycles := ls.noGrowthCycles + 1,
                 sameCount := 0, previousSize := ls.ds.uniqueLinks.length })
      (fun j hj it hit => H j (by simp at hj; omega) it hit) hlr rfl rfl
    rw [h1]
    refine ⟨loopCond_false_of_rb maxId _ h3, fun hc => absurd hc hsz⟩

/-- C4, amended, witness: Concrete stable state: one link discovered,
feed frozen; the loop condition is false after four further cycles. -/
theorem stable_feed_terminates_witness :
    loopCond 0 (scrollStep (fun _ => [⟨some "/u/status/1", "txt", [], false, false, false, false, false, [], false⟩]) 0 false
      (scrollStep (fun _ => [⟨some "/u/status/1", "txt", [], false, false, false, false, false, [], false⟩]) 0 false
        (scrollStep (fun _ => [⟨some "/u/status/1", "txt", [], false, false, false, false, false, [], false⟩]) 0 false
          (scrollStep (fun _ => [⟨some "/u/status/1", "txt", [], false, false, false, false, false, [], false⟩]) 0 false
            ⟨⟨["/u/status/1"], 1, [], [], false⟩, 0, 0, false, 0, 0⟩)))) = false ∧
    (((⟨⟨["/u/status/1"], 1, [], [], false⟩, 0, 0, false, 0, 0⟩ : LoopState)).ds.uniqueLinks.length =
        (⟨⟨["/u/status/1"], 1, [], [], false⟩, 0, 0, false, 0, 0⟩ : LoopState).previousSize →
      loopCond 0 (scrollStep (fun _ => [⟨some "/u/status/1", "txt", [], false, false, false, false, false, [], false⟩]) 0 false
        (scrollStep (fun _ => [⟨some "/u/status/1", "txt", [], false, false, false, false, false, [], false⟩]) 0 false
          (scrollStep (fun _ => [⟨some "/u/status/1", "txt", [], false, false, false, false, false, [], false⟩]) 0 false
            ⟨⟨["/u/status/1"], 1, [], [], false⟩, 0, 0, false, 0, 0⟩))) = false) := by
  refine stable_feed_terminates.1
    (fun _ => [⟨some "/u/status/1", "txt", [], false, false, false, false, false, [], false⟩])
    0 0 false ⟨⟨["/u/status/1"], 1, [], [], false⟩, 0, 0, false, 0, 0⟩ ?_ rfl rfl
  intro j hj it hit
  rw [List.mem_singleton.mp hit]
  decide

/-! ### C5 — error propagation -/

/-- The five-attempt article wait, written out. -/
theorem articleWait_eq (appears : Nat → Bool) :
    articleWait appears =
      (if appears 0 then (true, 0) else if appears 1 then (true, 1)
       else if appears 2 then (true, 2) else if appears 3 then (true, 3)
       else if appears 4 then (true, 4) else (false, 4)) := by
  cases h0 : appears 0 <;> cases h1 : appears 1 <;> cases h2 : appears 2 <;>
    cases h3 : appears 3 <;> cases h4 : appears 4 <;>
    simp [articleWait, articleWaitAux, h0, h1, h2, h3, h4]

/-- The wait fails exactly when all five attempts fail. -/
theorem articleWait_false_iff (appears : Nat → Bool) :
    (articleWait appears).1 = false ↔ ∀ i, i < 5 → appears i = false := by
  rw [articleWait_eq]
  constructor
  · intro h i hi
    by_cases h0 : appears 0 = true
    · rw [h0] at h
      cases h
    · by_cases h1 : appears 1 = true
      · simp [h0, h1] at h
      · by_cases h2 : appears 2 = true
        · simp [h0, h1, h2] at h
        · by_cases h3 : appears 3 = true
          · simp [h0, h1, h2, h3] at h
          · by_cases h4 : appears 4 = true
            · simp [h0, h1, h2, h3, h4] at h
            · interval_cases i <;> simpa using ‹¬ _ = true›
  · intro h
    have h0 := h 0 (by omega)
    have h1 := h 1 (by omega)
    have h2 := h 2 (by omega)
    have h3 := h 3 (by omega)
    have h4 := h 4 (by omega)
    simp [h0, h1, h2, h3, h4]

/-- On total failure, each of the four retries was preceded by a scroll
nudge. -/
theorem articleWait_nudges (appears : Nat → Bool)
    (h : (articleWait appears).1 = false) : (articleWait appears).2 = 4 := by
  rw [articleWait_false_iff] at h
  rw [articleWait_eq]
  simp [h 0 (by omega), h 1 (by omega), h 2 (by omega), h 3 (by omega), h 4 (by omega)]

/-- C5: `processMultipleTweets` never throws: every per-item signal —
a returned boolean or a raised exception, rate-limit flavoured or not — is
converted into a count and the loop continues, so the batch always
produces a summary.  `find_links` returns the fatal no-content error
exactly when all five initial article-wait attempts fail (each of the four
retries preceded by a scroll nudge); whenever some attempt succeeds it
returns a result normally. -/
theorem batch_never_throws_and_discovery_error_iff :
    (∀ items : List ItemSignal, ∃ s, processMultipleTweets items = .ok s) ∧
    (∀ (appears : Nat → Bool) (feed : Nat → List Article) (maxId limit : Nat)
        (download : Bool) (fuel : Nat),
      (∃ e, find_links appears feed maxId limit download fuel = .error e) ↔
        ∀ i, i < 5 → appears i = false) ∧
    (∀ appears : Nat → Bool,
      (articleWait appears).1 = false → (articleWait appears).2 = 4) := by
  refine ⟨fun items => ⟨_, rfl⟩, ?_, articleWait_nudges⟩
  intro appears feed maxId limit download fuel
  rw [← articleWait_false_iff]
  unfold find_links
  cases hw : (articleWait appears).1
  · simp [hw]
  · constructor
    · intro he
      obtain ⟨e, he⟩ := he
      rw [if_neg (by simp)] at he
      by_cases hlr : (initialExtract feed limit download).limitReached = true
      · rw [if_pos hlr] at he
        cases he
      · rw [if_neg hlr] at he
        cases he
    · intro he
      cases he

/-- C5, witness: One batch summary for a mixed signal list, and the
concrete failing/succeeding discovery runs. -/
theorem batch_never_throws_and_discovery_error_iff_witness :
    (∃ s, processMultipleTweets [.retOk true, .raised true, .raised false] = .ok s) ∧
    (∃ e, find_links (fun _ => false) (fun _ => []) 0 0 false 5 = .error e) := by
  constructor
  · exact batch_never_throws_and_discovery_error_iff.1
      [.retOk true, .raised true, .raised false]
  · exact (batch_never_throws_and_discovery_error_iff.2.1 (fun _ => false)
      (fun _ => []) 0 0 false 5).mpr (fun i _ => rfl)

/-! ### C2 — no duplicates, monotone growth, bounded by the limit -/

/-- C2: Every link list returned by `find_links` is free of duplicate
URLs and, when the link limit is non-zero, no longer than the limit; and
the link set grows monotonically (by appending only) across the scroll
cycles of the discovery loop and across every extraction pass. -/
theorem discovery_links_nodup_and_bounded :
    (∀ (appears : Nat → Bool) (feed : Nat → List Article) (maxId limit : Nat)
        (download : Bool) (fuel : Nat) (r : FindLinksResult),
      find_links appears feed maxId limit download fuel = .ok r →
      r.links.Nodup ∧ (0 < limit → r.links.length ≤ limit)) ∧
    (∀ (feed : Nat → List Article) (limit maxId : Nat) (download : Bool)
        (fuel : Nat) (ls : LoopState), ∃ t,
      (runLoop feed limit maxId download fuel ls).ds.uniqueLinks =
        ls.ds.uniqueLinks ++ t) ∧
    (∀ (limit : Nat) (download : Bool) (items : List ExtractedItem)
        (s : DiscoveryState), ∃ t,
      (extractLoop limit download s items).uniqueLinks = s.uniqueLinks ++ t) := by
  refine ⟨?_, fun feed limit maxId download fuel ls =>
      runLoop_unique_extend feed limit maxId download fuel ls,
    fun limit download items s => extractLoop_unique_extend limit download items s⟩
  intro appears feed maxId limit download fuel r hok
  have hinit_nodup : (initialExtract feed limit download).uniqueLinks.Nodup := by
    apply extractLoop_nodup
    simp [DiscoveryState.init]
  unfold find_links at hok
  by_cases hw : (articleWait appears).1 = true
  · rw [if_neg (by simp [hw])] at hok
    by_cases hlr : (initialExtract feed limit download).limitReached = true
    · rw [if_pos hlr] at hok
      injection hok with hok
      subst hok
      constructor
      · exact List.Nodup.map xcomPrefixInj hinit_nodup
      · intro hpos
        show ((initialExtract feed limit download).uniqueLinks.map _).length ≤ limit
        rw [List.length_map]
        apply extractLoop_length
        simpa [DiscoveryState.init] using hpos
    · rw [if_neg hlr] at hok
      injection hok with hok
      subst hok
      rw [mainResult_links]
      constructor
      · apply finalLinksOf_nodup
        apply List.Nodup.map xcomPrefixInj
        apply runLoop_nodup
        exact hinit_nodup
      · intro hpos
        exact finalLinksOf_length _ _ hpos
  · rw [if_pos (by simp [Bool.not_eq_true] at hw; simp [hw])] at hok
    exact absurd hok (by simp)

/-! ### C9 — handing the remainder to the batch orchestrator -/

theorem contains_false_not_mem {α : Type} [BEq α] [LawfulBEq α] {x : α} {l : List α}
    (h : l.contains x = false) : x ∉ l := by
  intro hm
  have h2 : l.contains x = true := List.elem_eq_true_of_mem hm
  rw [h2] at h
  cases h

theorem mainResult_processedTweets (limit : Nat) (download : Bool) (lsF : LoopState) :
    (mainResult limit download lsF).processedTweets = lsF.ds.processedTweets := by
  simp only [mainResult]
  split <;> rfl

theorem mainResult_batched_of_ne (limit : Nat) (lsF : LoopState)
    (h : (finalLinksOf limit (lsF.ds.uniqueLinks.map fun h => "https://x.com" ++ h)).length ≠ 0) :
    (mainResult limit true lsF).batched =
      remainingOf lsF.ds.processedTweets
        (finalLinksOf limit (lsF.ds.uniqueLinks.map fun h => "https://x.com" ++ h)) := by
  simp only [mainResult]
  rw [if_pos (by simp [h])]

/-- C9, counterexample: One complex post, `maxLinks = 1`, download
enabled: the limit is hit during the initial pre-scroll extraction, so
`find_links` returns at once — the complex URL is in the returned list,
was never saved inline (`processedTweets` is empty), and yet the batch
orchestrator is never invoked (`batchCalled = false`, nothing batched). -/
theorem early_limit_return_skips_batch :
    find_links (fun _ => true)
      (fun _ => [⟨some "/u/status/1", "txt", [], true, false, false, false, false, [], false⟩])
      0 1 true 100 = .ok ⟨["https://x.com/u/status/1"], [], false, [], [], 0, 0⟩ := rfl

/-- C9, amended: When content download is enabled and the link limit
is *not* reached during the initial pre-scroll extraction, every URL that
`find_links` returns and that was not saved inline as a simple post is
contained in the list handed to `processMultipleTweets` before the
function returns.  When the limit is hit during the initial extraction,
`find_links` instead returns immediately and no batch processing occurs. -/
theorem complex_links_batched_unless_early_return :
    ∀ (appears : Nat → Bool) (feed : Nat → List Article) (maxId limit fuel : Nat)
        (r : FindLinksResult),
      find_links appears feed maxId limit true fuel = .ok r →
      (initialExtract feed limit true).limitReached = false →
      ∀ u ∈ r.links,
        r.processedTweets.contains (replaceFirst u "https://x.com") = false →
        u ∈ r.batched := by
  intro appears feed maxId limit fuel r hok hlr u hu hp
  unfold find_links at hok
  by_cases hw : (articleWait appears).1 = true
  · rw [if_neg (by simp [hw]), if_neg (by rw [hlr]; simp)] at hok
    injection hok with hok
    subst hok
    set lsF := runLoop feed limit maxId true fuel
      ⟨initialExtract feed limit true, 0, 0, false, 0, 0⟩ with hlsF
    by_cases hlen :
        (finalLinksOf limit (lsF.ds.uniqueLinks.map fun h => "https://x.com" ++ h)).length = 0
    · rw [mainResult_links] at hu
      rw [List.length_eq_zero] at hlen
      rw [hlen] at hu
      exact absurd hu (List.not_mem_nil u)
    · rw [mainResult_batched_of_ne limit lsF hlen]
      rw [mainResult_links] at hu
      rw [mainResult_processedTweets] at hp
      exact List.mem_filter.mpr ⟨hu, by simpa using contains_false_not_mem hp⟩
  · rw [if_pos (by simp [Bool.not_eq_true] at hw; simp [hw])] at hok
    exact absurd hok (by simp)

/-- C9, amended, witness: Without an early return, a complex URL not
processed inline ends up in the batched list. -/
theorem complex_links_batched_unless_early_return_witness :
    "https://x.com/u/status/1" ∈
      (FindLinksResult.batched
        ⟨["https://x.com/u/status/1"], ["https://x.com/u/status/1"], true, [], [], 4, 4⟩) := by
  exact complex_links_batched_unless_early_return (fun _ => true)
    (fun _ => [⟨some "/u/status/1", "txt", [], true, false, false, false, false, [], false⟩])
    0 0 100
    ⟨["https://x.com/u/status/1"], ["https://x.com/u/status/1"], true, [], [], 4, 4⟩
    rfl rfl "https://x.com/u/status/1" (by decide) rfl

/-! ### C10 — simple posts are marked processed unconditionally -/

/-- C10: A newly discovered simple post with download enabled is added
to the inline-processed set no matter what `saveSimpleContent` did — the
returned boolean is discarded: a malformed href makes it fail (returning
`false`, writing nothing) and empty inline content makes it write nothing
at all, yet the post is still marked processed, is excluded from the batch
phase, and can end the run listed in the returned links with no artifact
on disk. -/
theorem simple_posts_marked_processed_unconditionally :
    (∀ (limit : Nat) (s : DiscoveryState) (it : ExtractedItem)
        (rest : List ExtractedItem),
      s.uniqueLinks.contains it.href = false →
      it.simple = true →
      it.href ∈ (extractLoop limit true s (it :: rest)).processedTweets) ∧
    saveSimpleContent "/u/status/5" "" [] = (true, []) ∧
    saveSimpleContent "/abc" "hello" ["https://pbs.twimg.com/media/a.jpg"] = (false, []) ∧
    find_links (fun _ => true)
      (fun _ => [⟨some "/u/status/7", "", [], false, false, false, false, false, [], false⟩])
      0 0 true 100 =
      .ok ⟨["https://x.com/u/status/7"], [], false, ["/u/status/7"], [], 4, 4⟩ := by
  refine ⟨?_, by decide, by decide, rfl⟩
  intro limit s it rest hc hsimple
  rw [extractLoop, if_neg (by rw [hc]; simp)]
  by_cases hl : 0 < limit ∧ limit ≤ (addItem true s it).uniqueLinks.length
  · rw [if_pos hl]
    show it.href ∈ (addItem true s it).processedTweets
    rw [addItem_processedTweets]
    simp [hsimple]
  · rw [if_neg hl]
    obtain ⟨t, ht⟩ := extractLoop_processed_extend limit true rest (addItem true s it)
    rw [ht, addItem_processedTweets]
    simp [hsimple]

/-- C10, witness: A concrete new simple post is marked processed. -/
theorem simple_posts_marked_processed_unconditionally_witness :
    ExtractedItem.href ⟨"/u/status/7", true, "", []⟩ ∈
      (extractLoop 0 true .init [⟨"/u/status/7", true, "", []⟩]).processedTweets := by
  exact simple_posts_marked_processed_unconditionally.1 0 .init
    ⟨"/u/status/7", true, "", []⟩ [] rfl rfl

/-- C2, witness: A concrete run with limit 1: the returned list is
duplicate-free and within the limit. -/
theorem discovery_links_nodup_and_bounded_witness :
    (FindLinksResult.links ⟨["https://x.com/u/status/1"], [], false, [], [], 0, 0⟩).Nodup ∧
      (0 < 1 →
        (FindLinksResult.links ⟨["https://x.com/u/status/1"], [], false, [], [], 0, 0⟩).length ≤ 1) := by
  exact discovery_links_nodup_and_bounded.1 (fun _ => true)
    (fun _ => [⟨some "/u/status/1", "txt", [], true, false, false, false, false, [], false⟩])
    0 1 true 10 ⟨["https://x.com/u/status/1"], [], false, [], [], 0, 0⟩ rfl
